import Mathlib

/-!
Shallow embedding of `circuit/breaker.py` (python-circuit): a circuit
breaker state machine (`CircuitBreaker`) and a registry of breakers
(`CircuitBreakerSet`).

Modelling conventions:
* Clock values are rationals (`Time := ℚ`), matching the injected
  numeric clock.  The source reads `self.clock()` several times inside
  one method call; each embedded operation takes the reading as a
  parameter `now`, used for every read within that call (the injected
  clock is the same callable throughout one call).
* Logging (`self.log`) is observability only and is dropped, except
  that the divisor of the error-rate computation in the `error` log
  line is kept as `rateDivisor`, since the spec speaks about it.
* Exception types (`error_types` entries, `exc_type`) are opaque
  identifiers `ErrKind := ℕ`.
* Python's `self.error_types` list is an object shared by reference
  between a `CircuitBreakerSet` and the breakers it creates.  We model
  the reference explicitly: breakers and the set store a cell index
  into a heap `Heap := ℕ → List ErrKind`, and operations that consult
  the classifier list (`__exit__`) take the heap as an argument.
* `raise CircuitOpenError()` in `test` is `Except.error`; the breaker
  is unchanged when the exception is raised (the source raises before
  any mutation).
-/

abbrev Time : Type := ℚ

abbrev ErrKind : Type := ℕ

abbrev Heap : Type := ℕ → List ErrKind

/-- The exception raised by `CircuitBreaker.test` when the circuit is
still open (class `CircuitOpenError` in the source). -/
inductive CircuitOpenError : Type
  | mk
  deriving DecidableEq

/-- The `self.state` field: the source uses the strings `'closed'`,
`'open'` and `'half-open'`. -/
inductive BState : Type
  | closed
  | open_
  | halfOpen
  deriving DecidableEq

/-- The mutable state of one `CircuitBreaker` (its `__init__` fields,
minus the `clock` and `log` collaborators; `error_types` is the heap
cell index of the shared classifier list). -/
structure CircuitBreaker : Type where
  error_types : ℕ
  maxfail : ℕ
  reset_timeout : Time
  time_unit : Time
  state : BState
  last_change : Option Time
  backoff_cap : Option Time
  test_fail_count : ℕ
  with_jitter : Bool
  errors : List Time
  deriving DecidableEq

/-- Constructor call `CircuitBreaker(clock, log, error_types, maxfail,
reset_timeout, time_unit, backoff_cap, with_jitter)`: state starts
`'closed'`, `last_change = None`, `test_fail_count = 0`, `errors = []`. -/
def initBreaker (error_types : ℕ) (maxfail : ℕ) (reset_timeout time_unit : Time)
    (backoff_cap : Option Time) (with_jitter : Bool) : CircuitBreaker :=
  { error_types := error_types
    maxfail := maxfail
    reset_timeout := reset_timeout
    time_unit := time_unit
    state := BState.closed
    last_change := none
    backoff_cap := backoff_cap
    test_fail_count := 0
    with_jitter := with_jitter
    errors := [] }

/-- Method `reset`: close the circuit and clear the probe-failure
counter (the `errors` window is left untouched). -/
def CircuitBreaker.reset (b : CircuitBreaker) : CircuitBreaker :=
  { b with state := BState.closed, test_fail_count := 0 }

/-- Method `open` (named `opened` here because `open` is reserved in
Lean): record the transition time and open the circuit. -/
def CircuitBreaker.opened (b : CircuitBreaker) (now : Time) : CircuitBreaker :=
  { b with state := BState.open_, last_change := some now }

/-- The divisor of the error-rate computation in `error`'s debug log:
the elapsed time, with an exact zero replaced by the `0.0001` epsilon
(`if time == 0: time = 0.0001`) before `float(self.maxfail) / time`
is evaluated. -/
def rateDivisor (time : Time) : Time :=
  if time = 0 then 1 / 10000 else time

/-- Method `error`: bump the half-open failure counter (capped at 16),
append `now` to the window, and if the window overflows `maxfail`, pop
the oldest timestamp and open the circuit when the elapsed time is
below `time_unit`. -/
def CircuitBreaker.error (b : CircuitBreaker) (now : Time) : CircuitBreaker :=
  let b1 := if b.state = BState.halfOpen then
    { b with test_fail_count := min (b.test_fail_count + 1) 16 } else b
  let errs := b1.errors ++ [now]
  if errs.length > b1.maxfail then
    let time := now - errs.headI
    let b2 := { b1 with errors := errs.tail }
    if time < b2.time_unit then b2.opened now else b2
  else
    { b1 with errors := errs }

/-- The `delay_time` computed by `test` before the jitter step:
`reset_timeout`, unless `backoff_cap` is truthy (set and non-zero, by
Python truthiness), in which case
`min(reset_timeout * 2 ** test_fail_count, backoff_cap)`. -/
def CircuitBreaker.delayTime (b : CircuitBreaker) : Time :=
  match b.backoff_cap with
  | some cap => if cap ≠ 0 then min (b.reset_timeout * 2 ^ b.test_fail_count) cap
      else b.reset_timeout
  | none => b.reset_timeout

/-- Method `test`: when the circuit is open, compare the time since
`last_change` against the (possibly jittered) delay; raise
`CircuitOpenError` if the delay has not elapsed, otherwise move to
half-open.  `rand` is the value `random.random()` would return on this
call (used only when `with_jitter`).  The source reads `last_change`
only in the open state, which it reaches only after `open` has set it;
`getD 0` covers the states unreachable in the source. -/
def CircuitBreaker.test (b : CircuitBreaker) (now rand : Time) :
    Except CircuitOpenError CircuitBreaker :=
  if b.state = BState.open_ then
    let delta := now - b.last_change.getD 0
    let delay_time := b.delayTime
    let delay_time := if b.with_jitter then rand * delay_time else delay_time
    if delta < delay_time then Except.error CircuitOpenError.mk
    else Except.ok { b with state := BState.halfOpen }
  else Except.ok b

/-- Method `success`: reset the breaker when half-open, otherwise do
nothing. -/
def CircuitBreaker.success (b : CircuitBreaker) : CircuitBreaker :=
  if b.state = BState.halfOpen then b.reset else b

/-- Method `__exit__`: on a clean exit run `success`; on an exit with an
exception whose type is in the shared classifier list run `error`; an
unclassified exception leaves the breaker untouched.  The returned
`Bool` is `__exit__`'s return value: always `False`, so the exception
always propagates. -/
def CircuitBreaker.exit (heap : Heap) (b : CircuitBreaker)
    (exc_type : Option ErrKind) (now : Time) : CircuitBreaker × Bool :=
  match exc_type with
  | none => (b.success, false)
  | some e => if e ∈ heap b.error_types then (b.error now, false) else (b, false)

/-- One caller-visible operation on a single breaker, with the clock
(and jitter) readings it observes. -/
inductive Op : Type
  | test (now rand : Time)
  | success
  | error (now : Time)

/-- Apply one operation.  A `test` that raises `CircuitOpenError`
leaves the breaker unchanged (the source raises before mutating). -/
def CircuitBreaker.apply (b : CircuitBreaker) : Op → CircuitBreaker
  | Op.test now rand =>
      match b.test now rand with
      | Except.ok b' => b'
      | Except.error _ => b
  | Op.success => b.success
  | Op.error now => b.error now

/-- Run a sequence of operations from a given breaker state. -/
def CircuitBreaker.run (b : CircuitBreaker) (ops : List Op) : CircuitBreaker :=
  ops.foldl CircuitBreaker.apply b

/-- Run a sequence of `error` calls with the given clock readings. -/
def CircuitBreaker.runErrors (b : CircuitBreaker) (ts : List Time) : CircuitBreaker :=
  ts.foldl CircuitBreaker.error b

abbrev Key : Type := ℕ

/-- The fields of a `CircuitBreakerSet` (its `__init__` fields, minus
`clock`, `log` and `factory`; `circuits` is the `id → breaker`
dictionary, and `error_types` is the heap cell index of the classifier
list the set allocates as `[]` on construction). -/
structure CircuitBreakerSet : Type where
  maxfail : ℕ
  reset_timeout : Time
  time_unit : Time
  backoff_cap : Option Time
  with_jitter : Bool
  circuits : Key → Option CircuitBreaker
  error_types : ℕ

/-- A `CircuitBreakerSet` together with the heap holding the classifier
lists (the Python object graph: the set and every breaker it created
point at one shared list object). -/
structure World : Type where
  heap : Heap
  cbset : CircuitBreakerSet

/-- Constructor call `CircuitBreakerSet(clock, log, maxfail,
reset_timeout, time_unit, backoff_cap, with_jitter)`: empty dictionary
of circuits, and a freshly allocated empty `error_types` list (cell 0
of the heap; no other allocation ever happens). -/
def initWorld (maxfail : ℕ) (reset_timeout time_unit : Time)
    (backoff_cap : Option Time) (with_jitter : Bool) : World :=
  { heap := fun _ => []
    cbset :=
      { maxfail := maxfail
        reset_timeout := reset_timeout
        time_unit := time_unit
        backoff_cap := backoff_cap
        with_jitter := with_jitter
        circuits := fun _ => none
        error_types := 0 } }

/-- Method `CircuitBreakerSet.handle_error`: append `err_type` to the
shared classifier list (mutating the heap cell the set points at). -/
def World.handle_error (w : World) (err_type : ErrKind) : World :=
  { w with heap := fun r =>
      if r = w.cbset.error_types then w.heap r ++ [err_type] else w.heap r }

/-- Method `CircuitBreakerSet.handle_errors`: append each of
`err_types` to the shared classifier list. -/
def World.handle_errors (w : World) (err_types : List ErrKind) : World :=
  { w with heap := fun r =>
      if r = w.cbset.error_types then w.heap r ++ err_types else w.heap r }

/-- Method `CircuitBreakerSet.context`: return the breaker for `id`,
first creating it via the factory (the `CircuitBreaker` constructor,
handed the set's policy fields and a reference to the shared
classifier list) if `id` is not yet in the dictionary. -/
def World.context (w : World) (id : Key) : CircuitBreaker × World :=
  match w.cbset.circuits id with
  | some b => (b, w)
  | none =>
      let b := initBreaker w.cbset.error_types w.cbset.maxfail
        w.cbset.reset_timeout w.cbset.time_unit w.cbset.backoff_cap
        w.cbset.with_jitter
      (b, { w with cbset := { w.cbset with
              circuits := fun k => if k = id then some b else w.cbset.circuits k } })

/-- In-place mutation of the breaker object stored under `id` (the
dictionary holds a reference to the object, so a method call on the
breaker is seen through the dictionary). -/
def World.updateBreaker (w : World) (id : Key) (b : CircuitBreaker) : World :=
  { w with cbset := { w.cbset with
      circuits := fun k => if k = id then some b else w.cbset.circuits k } }

/-- Every breaker stored in the dictionary points at the set's own
classifier list (true of every world built from `initWorld` by the
set's methods, since only `context` stores breakers). -/
def World.sharedRefs (w : World) : Prop :=
  ∀ k b, w.cbset.circuits k = some b → b.error_types = w.cbset.error_types

/-- A sample breaker in the half-open state (the policy of the test
suite: `maxfail = 2`, `reset_timeout = 10`, `time_unit = 60`), used to
instantiate the theorems at concrete inputs. -/
def sampleHalfOpen : CircuitBreaker :=
  { initBreaker 0 2 10 60 none false with
      state := BState.halfOpen, last_change := some 0, errors := [0] }

/-- A sample open breaker without a backoff cap. -/
def sampleOpen : CircuitBreaker :=
  { initBreaker 0 2 10 60 none false with
      state := BState.open_, last_change := some 0 }

/-- A sample open breaker with backoff cap 64 and one probe failure. -/
def sampleBackoff : CircuitBreaker :=
  { initBreaker 0 2 10 60 (some 64) false with
      state := BState.open_, last_change := some 0, test_fail_count := 1 }

theorem error_errors (b : CircuitBreaker) (now : Time) :
    (b.error now).errors =
      if (b.errors ++ [now]).length > b.maxfail then (b.errors ++ [now]).tail
      else b.errors ++ [now] := by
  unfold CircuitBreaker.error CircuitBreaker.opened
  dsimp only
  split_ifs <;> simp_all

theorem error_maxfail (b : CircuitBreaker) (now : Time) :
    (b.error now).maxfail = b.maxfail := by
  unfold CircuitBreaker.error CircuitBreaker.opened
  dsimp only
  split_ifs <;> simp_all

theorem error_tfc (b : CircuitBreaker) (now : Time) :
    (b.error now).test_fail_count =
      if b.state = BState.halfOpen then min (b.test_fail_count + 1) 16
      else b.test_fail_count := by
  unfold CircuitBreaker.error CircuitBreaker.opened
  dsimp only
  split_ifs <;> simp_all

theorem success_errors (b : CircuitBreaker) : b.success.errors = b.errors := by
  unfold CircuitBreaker.success CircuitBreaker.reset
  split_ifs <;> rfl

theorem success_maxfail (b : CircuitBreaker) : b.success.maxfail = b.maxfail := by
  unfold CircuitBreaker.success CircuitBreaker.reset
  split_ifs <;> rfl

theorem success_tfc (b : CircuitBreaker) :
    b.success.test_fail_count = if b.state = BState.halfOpen then 0
      else b.test_fail_count := by
  unfold CircuitBreaker.success CircuitBreaker.reset
  split_ifs <;> rfl

theorem test_apply_frame (b : CircuitBreaker) (now rand : Time) :
    (b.apply (Op.test now rand)).errors = b.errors ∧
    (b.apply (Op.test now rand)).maxfail = b.maxfail ∧
    (b.apply (Op.test now rand)).test_fail_count = b.test_fail_count := by
  unfold CircuitBreaker.apply CircuitBreaker.test
  dsimp only
  split_ifs <;> simp_all

theorem apply_maxfail (b : CircuitBreaker) (op : Op) :
    (b.apply op).maxfail = b.maxfail := by
  cases op with
  | test now rand => exact (test_apply_frame b now rand).2.1
  | success => exact success_maxfail b
  | error now => exact error_maxfail b now

theorem run_preserves (P : CircuitBreaker → Prop)
    (hstep : ∀ b op, P b → P (b.apply op)) :
    ∀ (ops : List Op) (b : CircuitBreaker), P b → P (b.run ops) := by
  intro ops
  induction ops with
  | nil => intro b hb; exact hb
  | cons op ops ih =>
      intro b hb
      exact ih (b.apply op) (hstep b op hb)

theorem apply_window_le (b : CircuitBreaker) (op : Op)
    (h : b.errors.length ≤ b.maxfail) :
    (b.apply op).errors.length ≤ (b.apply op).maxfail := by
  rw [apply_maxfail]
  cases op with
  | test now rand => rw [(test_apply_frame b now rand).1]; exact h
  | success => rw [show (b.apply Op.success) = b.success from rfl, success_errors]; exact h
  | error now =>
      rw [show (b.apply (Op.error now)) = b.error now from rfl, error_errors]
      split_ifs with hov
      · simp only [List.length_tail, List.length_append, List.length_singleton]
        omega
      · simp only [List.length_append, List.length_singleton] at hov ⊢
        omega

theorem apply_tfc_le (b : CircuitBreaker) (op : Op)
    (h : b.test_fail_count ≤ 16) :
    (b.apply op).test_fail_count ≤ 16 := by
  cases op with
  | test now rand => rw [(test_apply_frame b now rand).2.2]; exact h
  | success =>
      rw [show (b.apply Op.success) = b.success from rfl, success_tfc]
      split_ifs <;> omega
  | error now =>
      rw [show (b.apply (Op.error now)) = b.error now from rfl, error_tfc]
      split_ifs <;> omega

/-- C4: whenever the state is `half-open`, `success` sets the state to
`closed` and `test_fail_count` to 0; whenever the state is `closed` or
`open`, `success` changes nothing. -/
theorem halfopen_success_resets (b : CircuitBreaker) :
    (b.state = BState.halfOpen →
      b.success = { b with state := BState.closed, test_fail_count := 0 }) ∧
    (b.state = BState.closed → b.success = b) ∧
    (b.state = BState.open_ → b.success = b) := by
  refine ⟨fun h => ?_, fun h => ?_, fun h => ?_⟩ <;>
    simp [CircuitBreaker.success, CircuitBreaker.reset, h]

/-- Witness for C4 at a concrete half-open breaker. -/
theorem halfopen_success_resets_witness :
    sampleHalfOpen.success =
      { sampleHalfOpen with state := BState.closed, test_fail_count := 0 } :=
  (halfopen_success_resets sampleHalfOpen).1 rfl

/-- C7: exiting the scoped wrapper with an exception type not in the
classifier list leaves the whole breaker (window, state, counter,
`last_change`) unchanged and returns `False`, so the exception
propagates. -/
theorem unclassified_error_frame (heap : Heap) (b : CircuitBreaker)
    (e : ErrKind) (now : Time) (h : e ∉ heap b.error_types) :
    CircuitBreaker.exit heap b (some e) now = (b, false) := by
  simp [CircuitBreaker.exit, h]

/-- Witness for C7: exception kind 5 against a classifier list holding
only kind 3. -/
theorem unclassified_error_frame_witness :
    CircuitBreaker.exit (fun _ => [3]) sampleHalfOpen (some 5) 0 =
      (sampleHalfOpen, false) :=
  unclassified_error_frame (fun _ => [3]) sampleHalfOpen 5 0 (by decide)

/-- C8: starting from a fresh breaker, after any sequence of `test`,
`success` and `error` operations the window holds at most `maxfail`
entries, so even the transient window built inside `error` (one
appended timestamp before the overflow check) holds at most
`maxfail + 1`. -/
theorem window_bound_invariant (et maxfail : ℕ) (rt tu : Time)
    (cap : Option Time) (j : Bool) (ops : List Op) :
    ((initBreaker et maxfail rt tu cap j).run ops).errors.length ≤ maxfail ∧
    ∀ now : Time,
      (((initBreaker et maxfail rt tu cap j).run ops).errors ++ [now]).length ≤
        maxfail + 1 := by
  have hrunmf : ∀ (l : List Op) (b : CircuitBreaker), (b.run l).maxfail = b.maxfail := by
    intro l
    induction l with
    | nil => intro b; rfl
    | cons op l ih =>
        intro b
        rw [show b.run (op :: l) = (b.apply op).run l from rfl, ih, apply_maxfail]
  have h := run_preserves (fun b => b.errors.length ≤ b.maxfail)
    (fun b op hb => apply_window_le b op hb) ops
    (initBreaker et maxfail rt tu cap j) (by simp [initBreaker])
  have hm : ((initBreaker et maxfail rt tu cap j).run ops).maxfail = maxfail := by
    rw [hrunmf]
    rfl
  have hb : ((initBreaker et maxfail rt tu cap j).run ops).errors.length ≤ maxfail :=
    le_of_le_of_eq h hm
  refine ⟨hb, fun now => ?_⟩
  simp only [List.length_append, List.length_singleton]
  omega

/-- C9: the rate computation in `error` never divides by zero (an
elapsed time of exactly zero is replaced by the positive epsilon
`0.0001` before dividing), and `test` either raises `CircuitOpenError`
or returns normally — no other failure is possible. -/
theorem breaker_arithmetic_total :
    (∀ time : Time, rateDivisor time ≠ 0) ∧ 0 < rateDivisor 0 ∧
    ∀ (b : CircuitBreaker) (now rand : Time),
      (∃ b', b.test now rand = Except.ok b') ∨
        b.test now rand = Except.error CircuitOpenError.mk := by
  refine ⟨fun time => ?_, ?_, fun b now rand => ?_⟩
  · unfold rateDivisor
    split_ifs with h
    · norm_num
    · exact h
  · unfold rateDivisor
    norm_num
  · unfold CircuitBreaker.test
    dsimp only
    split_ifs <;>
      first
        | exact Or.inr rfl
        | exact Or.inl ⟨_, rfl⟩

/-- C10: neither `success` nor the `reset` it triggers clears the error
window, so failures recorded before the circuit closed again still
count: a half-open breaker with `maxfail = 2`, `time_unit = 60` and one
leftover timestamp re-opens after only two new failures (fewer than
`maxfail + 1 = 3`) following the successful probe. -/
theorem reset_keeps_error_window (b : CircuitBreaker) :
    b.reset.errors = b.errors ∧ b.success.errors = b.errors ∧
    (b.state = BState.halfOpen → b.maxfail = 2 → b.time_unit = 60 →
      b.errors = [0] → (b.success.runErrors [1, 2]).state = BState.open_) := by
  refine ⟨rfl, success_errors b, fun h1 h2 h3 h4 => ?_⟩
  simp [CircuitBreaker.success, h1, CircuitBreaker.reset, CircuitBreaker.runErrors,
    CircuitBreaker.error, CircuitBreaker.opened, h2, h3, h4]
  norm_num

/-- Witness for C10 at a concrete half-open breaker with a leftover
window entry. -/
theorem reset_keeps_error_window_witness :
    (sampleHalfOpen.success.runErrors [1, 2]).state = BState.open_ :=
  (reset_keeps_error_window sampleHalfOpen).2.2 rfl rfl rfl rfl

/-- C2: with the circuit open, no backoff cap and jitter disabled,
`test` raises `CircuitOpenError` exactly when less than `reset_timeout`
has elapsed since the transition to open, and otherwise moves the
breaker to `half-open` and returns normally. -/
theorem open_permit_no_backoff (b : CircuitBreaker) (now rand lc : Time)
    (hstate : b.state = BState.open_) (hlc : b.last_change = some lc)
    (hcap : b.backoff_cap = none) (hjit : b.with_jitter = false) :
    (now - lc < b.reset_timeout →
      b.test now rand = Except.error CircuitOpenError.mk) ∧
    (b.reset_timeout ≤ now - lc →
      b.test now rand = Except.ok { b with state := BState.halfOpen }) := by
  refine ⟨fun h => ?_, fun h => ?_⟩
  · simp [CircuitBreaker.test, CircuitBreaker.delayTime, hstate, hlc, hcap, hjit, h]
  · simp [CircuitBreaker.test, CircuitBreaker.delayTime, hstate, hlc, hcap, hjit,
      not_lt.mpr h]

/-- Witness for C2: the sample open breaker (`reset_timeout = 10`,
opened at time 0) rejects at time 3 and admits at time 10. -/
theorem open_permit_no_backoff_witness :
    sampleOpen.test 3 0 = Except.error CircuitOpenError.mk ∧
    sampleOpen.test 10 0 = Except.ok { sampleOpen with state := BState.halfOpen } :=
  ⟨(open_permit_no_backoff sampleOpen 3 0 0 rfl rfl rfl rfl).1 (by norm_num [sampleOpen, initBreaker]),
   (open_permit_no_backoff sampleOpen 10 0 0 rfl rfl rfl rfl).2 (by norm_num [sampleOpen, initBreaker])⟩

/-- C3: with a set (truthy) backoff cap and jitter disabled, the delay
`test` compares against the time since the last state change equals
`min(backoff_cap, reset_timeout * 2 ** test_fail_count)`; a failure in
the half-open state bumps `test_fail_count` by one, capped at 16; from
a fresh breaker the counter never exceeds 16 under any operation
sequence; and with `reset_timeout = 10` and cap 64 the required wait is
20 after the first probe failure and 40 after the second. -/
theorem backoff_cap_and_counter (b : CircuitBreaker) (cap now : Time)
    (hcap : b.backoff_cap = some cap) (h0 : cap ≠ 0)
    (hjit : b.with_jitter = false) :
    b.delayTime = min cap (b.reset_timeout * 2 ^ b.test_fail_count) ∧
    (∀ lc rand : Time, b.state = BState.open_ → b.last_change = some lc →
      (b.test now rand = Except.error CircuitOpenError.mk ↔
        now - lc < min cap (b.reset_timeout * 2 ^ b.test_fail_count))) ∧
    (b.state = BState.halfOpen →
      (b.error now).test_fail_count = min (b.test_fail_count + 1) 16) ∧
    (∀ (et maxfail : ℕ) (rt tu : Time) (c : Option Time) (j : Bool)
        (ops : List Op),
      ((initBreaker et maxfail rt tu c j).run ops).test_fail_count ≤ 16) ∧
    (b.reset_timeout = 10 → cap = 64 →
      (b.test_fail_count = 1 → b.delayTime = 20) ∧
      (b.test_fail_count = 2 → b.delayTime = 40)) := by
  have hdelay : b.delayTime = min cap (b.reset_timeout * 2 ^ b.test_fail_count) := by
    simp [CircuitBreaker.delayTime, hcap, h0, min_comm]
  refine ⟨hdelay, fun lc rand hstate hlc => ?_, fun hho => ?_, ?_, fun hrt hc => ?_⟩
  · simp only [CircuitBreaker.test, hstate, hlc, hjit, Option.getD_some,
      if_true, if_false, Bool.false_eq_true, ite_false]
    rw [hdelay]
    split_ifs with hlt
    · simp [hlt]
    · simp [hlt]
  · rw [error_tfc]
    simp [hho]
  · exact fun et maxfail rt tu c j ops =>
      run_preserves (fun b => b.test_fail_count ≤ 16)
        (fun b op hb => apply_tfc_le b op hb) ops _ (by simp [initBreaker])
  · refine ⟨fun h1 => ?_, fun h2 => ?_⟩
    · rw [hdelay, hrt, hc, h1]; norm_num
    · rw [hdelay, hrt, hc, h2]; norm_num

/-- Witness for C3: the sample capped breaker after one probe failure
must wait `min(64, 10 * 2) = 20`. -/
theorem backoff_cap_and_counter_witness :
    sampleBackoff.delayTime = 20 :=
  ((backoff_cap_and_counter sampleBackoff 64 0 rfl (by norm_num) rfl).2.2.2.2
    rfl rfl).1 rfl

theorem error_no_overflow (b : CircuitBreaker) (t : Time)
    (hstate : b.state = BState.closed)
    (hlen : b.errors.length + 1 ≤ b.maxfail) :
    b.error t = { b with errors := b.errors ++ [t] } := by
  have hcond : ¬ ((b.errors ++ [t]).length > b.maxfail) := by
    simp only [List.length_append, List.length_singleton]
    omega
  unfold CircuitBreaker.error
  dsimp only
  simp [hstate, hcond]
  intro hcontra
  exact absurd hcontra (by omega)

theorem runErrors_no_overflow (ts : List Time) :
    ∀ b : CircuitBreaker, b.state = BState.closed →
      b.errors.length + ts.length ≤ b.maxfail →
      b.runErrors ts = { b with errors := b.errors ++ ts } := by
  induction ts with
  | nil =>
      intro b _ _
      simp [CircuitBreaker.runErrors]
  | cons t ts ih =>
      intro b hstate hlen
      have h1 : b.errors.length + 1 ≤ b.maxfail := by
        simp only [List.length_cons] at hlen
        omega
      have hstep : b.runErrors (t :: ts) = (b.error t).runErrors ts := rfl
      rw [hstep, error_no_overflow b t hstate h1,
        ih { b with errors := b.errors ++ [t] } hstate
          (by simp only [List.length_append, List.length_singleton,
                List.length_cons, List.length_nil] at hlen ⊢; omega)]
      simp

theorem error_overflow_state (b : CircuitBreaker) (t : Time)
    (hstate : b.state = BState.closed)
    (hlen : b.errors.length + 1 > b.maxfail) :
    (b.error t).state =
      if t - (b.errors ++ [t]).headI < b.time_unit then BState.open_
      else BState.closed := by
  have hcond : (b.errors ++ [t]).length > b.maxfail := by
    simp only [List.length_append, List.length_singleton]
    omega
  unfold CircuitBreaker.error CircuitBreaker.opened
  dsimp only
  simp only [hstate, reduceCtorEq, if_false, hcond, if_true]
  split_ifs <;> simp [hstate]

/-- C1: from a freshly created breaker in state closed, any sequence of
`maxfail + 1` failures whose last clock reading minus first clock
reading is strictly below `time_unit` leaves the breaker open, and any
such sequence whose last reading minus first reading is at least
`time_unit` leaves it closed. -/
theorem sliding_window_trip (et maxfail : ℕ) (rt tu : Time)
    (cap : Option Time) (j : Bool) (ts : List Time) (hne : ts ≠ [])
    (hlen : ts.length = maxfail + 1) :
    (ts.getLast hne - ts.head hne < tu →
      ((initBreaker et maxfail rt tu cap j).runErrors ts).state = BState.open_) ∧
    (tu ≤ ts.getLast hne - ts.head hne →
      ((initBreaker et maxfail rt tu cap j).runErrors ts).state = BState.closed) := by
  rcases List.eq_nil_or_concat' ts with h | ⟨L, a, hLa⟩
  · exact absurd h hne
  subst hLa
  have hL : L.length = maxfail := by simpa using hlen
  have hfill : (initBreaker et maxfail rt tu cap j).runErrors L =
      { initBreaker et maxfail rt tu cap j with errors := [] ++ L } := by
    exact runErrors_no_overflow L (initBreaker et maxfail rt tu cap j) rfl
      (by simp [initBreaker, hL])
  have hsplit : (initBreaker et maxfail rt tu cap j).runErrors (L ++ [a]) =
      ((initBreaker et maxfail rt tu cap j).runErrors L).error a := by
    unfold CircuitBreaker.runErrors
    rw [List.foldl_append]
    rfl
  have hstep := error_overflow_state
    { initBreaker et maxfail rt tu cap j with errors := [] ++ L } a rfl
    (by simp [initBreaker, hL])
  have hstate : ((initBreaker et maxfail rt tu cap j).runErrors (L ++ [a])).state =
      if a - (L ++ [a]).headI < tu then BState.open_ else BState.closed := by
    rw [hsplit, hfill]
    simpa [initBreaker] using hstep
  have hhead : (L ++ [a]).headI = (L ++ [a]).head hne := by
    cases L with
    | nil => rfl
    | cons x xs => rfl
  have hlast : (L ++ [a]).getLast hne = a := List.getLast_append_singleton L
  rw [hstate, hlast, ← hhead]
  constructor
  · intro h
    simp [h]
  · intro h
    simp [not_lt.mpr h]

/-- Witness for C1: with `maxfail = 2` and `time_unit = 60`, three
failures at times 0, 0, 0 open the circuit, and three failures at
times 0, 30, 60 leave it closed. -/
theorem sliding_window_trip_witness :
    ((initBreaker 0 2 10 60 none false).runErrors [0, 0, 0]).state =
        BState.open_ ∧
    ((initBreaker 0 2 10 60 none false).runErrors [0, 30, 60]).state =
        BState.closed :=
  ⟨(sliding_window_trip 0 2 10 60 none false [0, 0, 0] (by simp) rfl).1
      (by norm_num),
   (sliding_window_trip 0 2 10 60 none false [0, 30, 60] (by simp) rfl).2
      (by norm_num)⟩

theorem sharedRefs_init (maxfail : ℕ) (rt tu : Time) (cap : Option Time)
    (j : Bool) : (initWorld maxfail rt tu cap j).sharedRefs := by
  intro k b h
  simp [initWorld] at h

theorem sharedRefs_handle_error (w : World) (hw : w.sharedRefs) (e : ErrKind) :
    (w.handle_error e).sharedRefs :=
  fun k b h => hw k b h

theorem sharedRefs_context (w : World) (hw : w.sharedRefs) (id : Key) :
    (w.context id).2.sharedRefs := by
  cases hca : w.cbset.circuits id with
  | some b₀ =>
      simpa [World.context, hca] using hw
  | none =>
      intro k b h
      simp only [World.context, hca] at h ⊢
      split_ifs at h with hk
      · cases h
        rfl
      · exact hw k b h

/-- C6: `context` is idempotent per key and never fails — the first
call for a fresh key creates the breaker via the factory and stores
it, and later calls return that stored instance with the registry
unchanged — and entries under distinct keys are independent: creating
or mutating the breaker under one key leaves the entry under any other
key untouched. -/
theorem context_idempotent_independent (w : World) (id id' : Key)
    (hne : id ≠ id') (b : CircuitBreaker) :
    (∀ b₀ w₁, w.context id = (b₀, w₁) → w₁.context id = (b₀, w₁)) ∧
    (w.cbset.circuits id = none →
      (w.context id).1 = initBreaker w.cbset.error_types w.cbset.maxfail
          w.cbset.reset_timeout w.cbset.time_unit w.cbset.backoff_cap
          w.cbset.with_jitter ∧
      (w.context id).2.cbset.circuits id = some (w.context id).1) ∧
    (∀ b₀, w.cbset.circuits id = some b₀ → w.context id = (b₀, w)) ∧
    (w.context id).2.cbset.circuits id' = w.cbset.circuits id' ∧
    (w.updateBreaker id b).cbset.circuits id' = w.cbset.circuits id' := by
  have hupd : (w.updateBreaker id b).cbset.circuits id' = w.cbset.circuits id' := by
    simp [World.updateBreaker, hne.symm]
  cases hca : w.cbset.circuits id with
  | some b₀ =>
      refine ⟨fun b₁ w₁ h => ?_, fun hno => (nomatch hno), fun b₁ h => ?_, ?_, hupd⟩
      · have hc : w.context id = (b₀, w) := by simp [World.context, hca]
        rw [hc] at h
        cases h
        exact hc
      · injection h with hh
        subst hh
        simp [World.context, hca]
      · simp [World.context, hca]
  | none =>
      refine ⟨fun b₁ w₁ h => ?_, fun _ => ⟨?_, ?_⟩, fun b₁ h => (nomatch h),
        ?_, hupd⟩
      · simp only [World.context, hca] at h
        cases h
        simp [World.context]
      · simp [World.context, hca]
      · simp [World.context, hca]
      · simp [World.context, hca, hne.symm]

/-- Witness for C6: in a fresh registry, creating the breaker for key 1
leaves the entry for key 2 untouched. -/
theorem context_idempotent_independent_witness :
    ((initWorld 3 10 60 none false).context 1).2.cbset.circuits 2 =
      (initWorld 3 10 60 none false).cbset.circuits 2 :=
  (context_idempotent_independent (initWorld 3 10 60 none false) 1 2
    (by decide) sampleOpen).2.2.2.1

/-- C5: the classifier list is shared by reference between the
registry and the breakers it hands out, so registering an error kind
after a breaker was obtained still makes that breaker's scoped-wrapper
exit record a failure for that kind: the exit takes the `error`
branch and propagates the exception, and `error` appends the timestamp
to the breaker's window (possibly then evicting the oldest entry). -/
theorem late_registration_affects_existing (w : World) (hw : w.sharedRefs)
    (id : Key) (e : ErrKind) (now : Time) :
    CircuitBreaker.exit ((w.context id).2.handle_error e).heap
        (w.context id).1 (some e) now = ((w.context id).1.error now, false) ∧
    (((w.context id).1.error now).errors =
        (w.context id).1.errors ++ [now] ∨
      ((w.context id).1.error now).errors =
        ((w.context id).1.errors ++ [now]).tail) := by
  constructor
  · have href : (w.context id).1.error_types = (w.context id).2.cbset.error_types := by
      cases hca : w.cbset.circuits id with
      | some b₀ => simpa [World.context, hca] using hw id b₀ hca
      | none => simp [World.context, hca, initBreaker]
    have hmem : e ∈ ((w.context id).2.handle_error e).heap
        ((w.context id).1.error_types) := by
      rw [href]
      simp [World.handle_error]
    simp [CircuitBreaker.exit, hmem]
  · rw [error_errors]
    split_ifs with h
    · right; rfl
    · left; rfl

/-- Witness for C5: in a fresh registry, obtain the breaker for key 1,
then register error kind 7; exiting that breaker's scope with kind 7
records the failure. -/
theorem late_registration_affects_existing_witness :
    CircuitBreaker.exit
        ((((initWorld 3 10 60 none false).context 1).2.handle_error 7)).heap
        (((initWorld 3 10 60 none false).context 1)).1 (some 7) 0 =
      ((((initWorld 3 10 60 none false).context 1)).1.error 0, false) :=
  (late_registration_affects_existing (initWorld 3 10 60 none false)
    (sharedRefs_init 3 10 60 none false) 1 7 0).1
